import Mathlib

/-!
Shallow embedding of the Active Wind Wall node firmware and coordinator
safety shaping, translated from:

* `src/pico/firmware_template.c`  — the positional-addressing node firmware
  (SPI byte drain, sync latch, watchdog);
* `src/pico/pico2_spi_pwm_v1.c`   — the earlier variant with a wrapping
  frame index and a `frame_complete` gate on the sync latch;
* `src/README.md` (Signal-to-PWM Mapping block) — the coordinator's
  slew-rate limiting step.

Machine integers are modelled as `Nat` (all quantities involved are small
and non-negative in the C code: `uint8_t` bytes, `uint16_t` pulse widths,
`uint64_t` microsecond counts); the coordinator slew step uses `Int`
because deltas may be negative.
-/

namespace AWW

/-- Header constant `#define MOTORS_PER_PICO 9`. -/
def MOTORS_PER_PICO : Nat := 9

/-- Header constant `#define TOTAL_MOTORS 36`. -/
def TOTAL_MOTORS : Nat := 36

/-- Header constant `#define FRAME_BYTES TOTAL_MOTORS`. -/
def FRAME_BYTES : Nat := TOTAL_MOTORS

/-- Header constant `#define MY_START (PICO_ID * MOTORS_PER_PICO)`. -/
def MY_START (picoId : Nat) : Nat := picoId * MOTORS_PER_PICO

/-- Header constant `#define MY_END (MY_START + MOTORS_PER_PICO)`. -/
def MY_END (picoId : Nat) : Nat := MY_START picoId + MOTORS_PER_PICO

/-- Watchdog constant `const uint64_t SAFETY_TIMEOUT_US = 200000;` (firmware_template.c:155). -/
def SAFETY_TIMEOUT_US : Nat := 200000

/-- The clamp at the head of `set_motor_pwm_us` (firmware_template.c:69-70):
`if (pulse_us < 1000) pulse_us = 1000; if (pulse_us > 2000) pulse_us = 2000;`.
The returned value is the pulse width actually applied to the channel. -/
def clampPulse (pulse_us : Nat) : Nat :=
  let p := if pulse_us < 1000 then 1000 else pulse_us
  if p > 2000 then 2000 else p

/-- The counter-level conversion in `set_motor_pwm_us`
(firmware_template.c:73-74): `level = (uint16_t)(pulse_us * 2.34375f);
if (level > 31250) level = 31250;`.  For clamped pulses (≤ 2000) the float
product `pulse_us * 2.34375f = 75 * pulse_us / 32` is exactly representable
in single precision, and the cast truncates, so the value equals the `Nat`
floor division. -/
def pwmLevel (pulse_us : Nat) : Nat :=
  let level := 75 * pulse_us / 32
  if level > 31250 then 31250 else level

/-- The raw-byte → pulse mapping applied at each sync latch
(firmware_template.c:196-207, identically pico2_spi_pwm_v1.c:171-177 and
src/unnamed/part_006:85-91):
`if (raw_val == 0) target_pwm = 1000; else
 target_pwm = 1200 + ((uint32_t)raw_val * 800) / 255;
 if (target_pwm > 2000) target_pwm = 2000;`. -/
def byteToPwm (raw_val : Nat) : Nat :=
  if raw_val = 0 then 1000
  else
    let target := 1200 + raw_val * 800 / 255
    if target > 2000 then 2000 else target

/-- Node state of `firmware_template.c`: the frame byte counter
`byte_index`, the incoming slice buffer `motor_values`, the latched
`active_frame_buffer`, the pulse widths last applied by
`set_motor_pwm_us` per owned motor, and the microseconds elapsed since
`last_sync_time` (the value of `absolute_time_diff_us(last_sync_time, now)`
in the main loop). -/
structure NodeState where
  byteIndex : Nat
  motorValues : Fin 9 → Nat
  activeBuffer : Fin 9 → Nat
  outputs : Fin 9 → Nat
  elapsed : Nat

/-- Boot state after the init loop (firmware_template.c:118-134): buffers
zeroed, every motor driven to `set_motor_pwm_us(i, 1000)`, watchdog timer
freshly seeded. -/
def initState : NodeState :=
  { byteIndex := 0
    motorValues := fun _ => 0
    activeBuffer := fun _ => 0
    outputs := fun _ => clampPulse 1000
    elapsed := 0 }

/-- One received SPI byte, Step A of the main loop
(firmware_template.c:165-179): snapshot `idx = byte_index`, increment
`byte_index` only while it is below `FRAME_BYTES`, and store the byte into
`motor_values[idx - MY_START]` only when `idx` lies in this node's range. -/
def receiveByte (picoId : Nat) (s : NodeState) (rx : Nat) : NodeState :=
  let idx := s.byteIndex
  let s1 := if s.byteIndex < FRAME_BYTES then { s with byteIndex := s.byteIndex + 1 } else s
  if MY_START picoId ≤ idx ∧ idx < MY_END picoId then
    { s1 with motorValues :=
        fun i => if (i : Nat) = idx - MY_START picoId then rx else s.motorValues i }
  else s1

/-- Step B of the main loop, run when `sync_pulse_detected` is observed
(firmware_template.c:183-214): stamp `last_sync_time`, copy `motor_values`
into `active_frame_buffer`, drive every owned motor through
`byteToPwm`/`set_motor_pwm_us`, and reset `byte_index` to 0. -/
def syncStep (s : NodeState) : NodeState :=
  { byteIndex := 0
    motorValues := s.motorValues
    activeBuffer := s.motorValues
    outputs := fun i => clampPulse (byteToPwm (s.motorValues i))
    elapsed := 0 }

/-- Step C of the main loop (firmware_template.c:219-227): when more than
`SAFETY_TIMEOUT_US` microseconds have passed since the last sync, force
every owned motor to `set_motor_pwm_us(i, 1000)`.  Nothing else changes. -/
def watchdogCheck (s : NodeState) : NodeState :=
  if s.elapsed > SAFETY_TIMEOUT_US then
    { s with outputs := fun _ => clampPulse 1000 }
  else s

/-- External events driving one firmware node: an SPI byte arriving, a sync
rising edge being processed by the main loop, and `d` microseconds passing
with no byte and no edge (after which the main loop runs its watchdog
check). -/
inductive Event where
  | rx (b : Nat)
  | sync
  | timePasses (d : Nat)

/-- One main-loop reaction of `firmware_template.c` to an event. -/
def step (picoId : Nat) (s : NodeState) : Event → NodeState
  | .rx b => receiveByte picoId s b
  | .sync => syncStep s
  | .timePasses d => watchdogCheck { s with elapsed := s.elapsed + d }

/-- Receiving one whole frame followed by a processed sync edge. -/
def runFrame (picoId : Nat) (s : NodeState) (frame : List Nat) : NodeState :=
  syncStep (frame.foldl (receiveByte picoId) s)

/-- All applied pulse widths lie in the valid channel range [1000, 2000] µs. -/
def outputsInRange (s : NodeState) : Prop :=
  ∀ i : Fin 9, 1000 ≤ s.outputs i ∧ s.outputs i ≤ 2000

/-- A reachable mid-frame template state: boot state after 5 bytes of a
frame have streamed past. -/
def midFrameState : NodeState :=
  { initState with byteIndex := 5 }

/-!  Node state of `pico2_spi_pwm_v1.c` (PICO_ID 0 in that file): the full
36-byte `frame_buffer`, the wrapping `frame_index`, the `frame_complete`
flag, the latched per-motor slice, the applied pulse widths, the
`sync_pulse_detected` flag set by the IRQ, and microseconds since
`last_sync_time`. -/
structure V1State where
  frameBuffer : Fin 36 → Nat
  frameIndex : Nat
  frameComplete : Bool
  activeBuffer : Fin 9 → Nat
  outputs : Fin 9 → Nat
  syncPending : Bool
  elapsed : Nat

/-- One received SPI byte in `pico2_spi_pwm_v1.c` (lines 133-143):
`frame_buffer[frame_index] = rx; frame_index++;
 if (frame_index >= FRAME_BYTES) { frame_index = 0; frame_complete = true; }`. -/
def v1ReceiveByte (s : V1State) (rx : Nat) : V1State :=
  let fb := fun i : Fin 36 => if (i : Nat) = s.frameIndex then rx else s.frameBuffer i
  if s.frameIndex + 1 ≥ FRAME_BYTES then
    { s with frameBuffer := fb, frameIndex := 0, frameComplete := true }
  else
    { s with frameBuffer := fb, frameIndex := s.frameIndex + 1 }

/-- This node's slice of the v1 frame buffer: `frame_buffer[MY_START + i]`
with `PICO_ID = 0` as in the source file. -/
def v1FrameSlice (s : V1State) (i : Fin 9) : Nat :=
  s.frameBuffer ⟨MY_START 0 + (i : Nat), by have := i.isLt; simp [MY_START, MOTORS_PER_PICO]; omega⟩

/-- Section B of the v1 main loop (pico2_spi_pwm_v1.c:146-180): the latch
runs only when `sync_pulse_detected && frame_complete`; it clears both
flags, stamps `last_sync_time`, copies this node's slice into
`active_frame_buffer` and drives the motors.  Note: `frame_index` is not
touched here. -/
def v1SyncCheck (s : V1State) : V1State :=
  if s.syncPending ∧ s.frameComplete then
    { s with syncPending := false
             frameComplete := false
             elapsed := 0
             activeBuffer := fun i => v1FrameSlice s i
             outputs := fun i => clampPulse (byteToPwm (v1FrameSlice s i)) }
  else s

/-- A reachable v1 state mid-frame (5 bytes into a frame) with a pending
sync edge and no complete frame yet. -/
def v1MidFrameState : V1State :=
  { frameBuffer := fun _ => 0
    frameIndex := 5
    frameComplete := false
    activeBuffer := fun _ => 0
    outputs := fun _ => 1000
    syncPending := true
    elapsed := 0 }

/-!  Coordinator safety shaping, from the Signal-to-PWM Mapping block of
src/README.md (lines 77-90).  The numpy operations are per-motor and
elementwise; one scalar lane is embedded, over `Int` since deltas are
signed.  -/

/-- Scalar `np.clip(x, lo, hi)`. -/
def clip (x lo hi : Int) : Int := max lo (min hi x)

/-- README step `pwm_delta = np.clip(pwm_target - prev_pwm, -50, +50)`. -/
def pwm_delta (prev_pwm pwm_target : Int) : Int :=
  clip (pwm_target - prev_pwm) (-50) 50

/-- README step `pwm_safe = prev_pwm + pwm_delta`. -/
def pwm_safe (prev_pwm pwm_target : Int) : Int :=
  prev_pwm + pwm_delta prev_pwm pwm_target

/-- README step `pwm_final = np.clip(pwm_safe, 1000, 2000)` — the value transmitted
this tick, which becomes `prev_pwm` for the next tick. -/
def pwm_final (prev_pwm pwm_target : Int) : Int :=
  clip (pwm_safe prev_pwm pwm_target) 1000 2000

/-- The transmitted values over a sequence of per-tick targets, the
previous value threaded from tick to tick. -/
def slewRun (prev_pwm : Int) : List Int → List Int
  | [] => []
  | t :: ts => pwm_final prev_pwm t :: slewRun (pwm_final prev_pwm t) ts

end AWW

namespace AWW

-- Basic evaluation checks of the embedding against the C constants.

example : byteToPwm 0 = 1000 := by decide
example : byteToPwm 1 = 1203 := by decide
example : byteToPwm 128 = 1601 := by decide
example : byteToPwm 255 = 2000 := by decide
example : clampPulse 500 = 1000 := by decide
example : clampPulse 2500 = 2000 := by decide
example : pwmLevel 1000 = 2343 := by decide
example : pwmLevel 2000 = 4687 := by decide

-- Helper lemmas shared by several claims.

theorem receiveByte_byteIndex (picoId : Nat) (s : NodeState) (b : Nat) :
    (receiveByte picoId s b).byteIndex =
      if s.byteIndex < FRAME_BYTES then s.byteIndex + 1 else s.byteIndex := by
  simp only [receiveByte]
  split_ifs <;> rfl

theorem receiveByte_motorValues (picoId : Nat) (s : NodeState) (b : Nat) (i : Fin 9) :
    (receiveByte picoId s b).motorValues i =
      if MY_START picoId + (i : Nat) = s.byteIndex then b else s.motorValues i := by
  have hi := i.isLt
  by_cases hc : MY_START picoId ≤ s.byteIndex ∧ s.byteIndex < MY_END picoId
  · have hL : (receiveByte picoId s b).motorValues i
        = if (i : Nat) = s.byteIndex - MY_START picoId then b else s.motorValues i := by
      simp only [receiveByte]
      rw [if_pos hc]
    rw [hL]
    have hiff : ((i : Nat) = s.byteIndex - MY_START picoId)
        ↔ (MY_START picoId + (i : Nat) = s.byteIndex) := by
      have e1 : MY_START picoId = picoId * 9 := rfl
      have e2 : MY_END picoId = picoId * 9 + 9 := rfl
      rw [e1, e2] at hc
      rw [e1]
      omega
    exact if_congr hiff rfl rfl
  · have hL : (receiveByte picoId s b).motorValues i = s.motorValues i := by
      simp only [receiveByte]
      rw [if_neg hc]
      split_ifs <;> rfl
    rw [hL]
    have hno : ¬ (MY_START picoId + (i : Nat) = s.byteIndex) := by
      have e1 : MY_START picoId = picoId * 9 := rfl
      have e2 : MY_END picoId = picoId * 9 + 9 := rfl
      rw [e1, e2] at hc
      rw [e1]
      omega
    rw [if_neg hno]

theorem receiveByte_outputs (picoId : Nat) (s : NodeState) (b : Nat) :
    (receiveByte picoId s b).outputs = s.outputs := by
  simp only [receiveByte]
  split_ifs <;> rfl

theorem clampPulse_mem (p : Nat) : 1000 ≤ clampPulse p ∧ clampPulse p ≤ 2000 := by
  simp only [clampPulse]
  split_ifs <;> omega

/-- C3: every pulse width actually applied to the hardware is clamped into
[1000, 2000] µs by `set_motor_pwm_us`, for every input pulse value; the
"outputs within [min, max]" invariant holds at initialization and is
preserved by every event (byte reception, frame apply at a sync edge, and
the watchdog idle write). -/
theorem C3_output_range_invariant :
    (∀ p : Nat, 1000 ≤ clampPulse p ∧ clampPulse p ≤ 2000)
    ∧ outputsInRange initState
    ∧ (∀ (picoId : Nat) (s : NodeState) (e : Event),
        outputsInRange s → outputsInRange (step picoId s e)) := by
  refine ⟨clampPulse_mem, ?_, ?_⟩
  · intro i
    exact clampPulse_mem 1000
  · intro picoId s e hs
    cases e with
    | rx b =>
      intro i
      simpa [step, receiveByte_outputs] using hs i
    | sync =>
      intro i
      exact clampPulse_mem (byteToPwm (s.motorValues i))
    | timePasses d =>
      intro i
      simp only [step, watchdogCheck]
      split_ifs
      · exact clampPulse_mem 1000
      · exact hs i

theorem C3_output_range_invariant_witness :
    outputsInRange (step 0 initState (Event.rx 5)) :=
  C3_output_range_invariant.2.2 0 initState (Event.rx 5)
    C3_output_range_invariant.2.1

/-- C5 counterexample: the claim places the start of the active range at
1200 µs for raw byte 1, but the code maps raw byte 1 to
`1200 + (1 * 800) / 255 = 1203` µs. -/
theorem C5_counterexample : byteToPwm 1 ≠ 1200 ∧ byteToPwm 1 = 1203 := by
  decide

/-- C5 (amended): raw byte 0 maps to the fixed idle value 1000 µs, a
distinct disarmed sentinel strictly below the active range; every active
byte b ∈ [1, 255] maps at or above 1203 µs (the formula's base 1200 plus
the integer-division value of 800/255 at b = 1) and at or below 2000 µs. -/
theorem C5_zero_idle_sentinel :
    byteToPwm 0 = 1000
    ∧ (∀ b : Nat, 1 ≤ b → b ≤ 255 → 1203 ≤ byteToPwm b ∧ byteToPwm b ≤ 2000)
    ∧ byteToPwm 1 = 1203 := by
  refine ⟨by decide, ?_, by decide⟩
  intro b h1 h255
  have hb : ¬ (b = 0) := by omega
  simp only [byteToPwm, if_neg hb]
  have hlo : 3 ≤ b * 800 / 255 := by
    have h800 : 800 ≤ b * 800 := by
      have := Nat.mul_le_mul_right 800 h1
      simpa using this
    calc (3 : Nat) = 800 / 255 := by decide
    _ ≤ b * 800 / 255 := Nat.div_le_div_right h800
  have hhi : b * 800 / 255 ≤ 800 := by
    have hm : b * 800 ≤ 255 * 800 := Nat.mul_le_mul_right 800 h255
    calc b * 800 / 255 ≤ 255 * 800 / 255 := Nat.div_le_div_right hm
    _ = 800 := by decide
  split_ifs <;> omega

theorem C5_zero_idle_sentinel_witness :
    1203 ≤ byteToPwm 7 ∧ byteToPwm 7 ≤ 2000 :=
  C5_zero_idle_sentinel.2.1 7 (by decide) (by decide)

/-- C6: the raw-byte → pulse mapping
`1200 + (b * 800) / 255` (integer division, then clamped at 2000) is
monotonically non-decreasing on b ∈ [1, 255]. -/
theorem C6_mapping_monotone (b1 b2 : Nat)
    (h1 : 1 ≤ b1) (h12 : b1 ≤ b2) (_h255 : b2 ≤ 255) :
    byteToPwm b1 ≤ byteToPwm b2 := by
  have hb1 : ¬ (b1 = 0) := by omega
  have hb2 : ¬ (b2 = 0) := by omega
  simp only [byteToPwm, if_neg hb1, if_neg hb2]
  have ht : b1 * 800 / 255 ≤ b2 * 800 / 255 :=
    Nat.div_le_div_right (Nat.mul_le_mul_right 800 h12)
  split_ifs <;> omega

theorem C6_mapping_monotone_witness : byteToPwm 1 ≤ byteToPwm 255 :=
  C6_mapping_monotone 1 255 (by decide) (by decide) (by decide)

/-- C2: the watchdog threshold is the fixed 200 ms (inside the spec's
100–250 ms band); whenever more than `SAFETY_TIMEOUT_US` microseconds have
elapsed since the last sync edge, the loop iteration forces every owned
motor to the 1000 µs idle pulse, independent of the contents of the
pending (`motor_values`) and active buffers; and the next processed sync
edge latches and applies whatever frame is buffered at that time, with a
freshly stamped watchdog timer. -/
theorem C2_watchdog_failsafe (picoId : Nat) :
    (SAFETY_TIMEOUT_US = 200000
      ∧ 100000 ≤ SAFETY_TIMEOUT_US ∧ SAFETY_TIMEOUT_US ≤ 250000)
    ∧ (∀ (s : NodeState) (d : Nat), SAFETY_TIMEOUT_US < s.elapsed + d →
        ∀ i : Fin 9, (step picoId s (Event.timePasses d)).outputs i = 1000)
    ∧ (∀ (s : NodeState) (i : Fin 9),
        (syncStep s).activeBuffer i = s.motorValues i
        ∧ (syncStep s).outputs i = clampPulse (byteToPwm (s.motorValues i))
        ∧ (syncStep s).elapsed = 0) := by
  refine ⟨⟨rfl, by decide, by decide⟩, ?_, ?_⟩
  · intro s d h i
    simp only [step, watchdogCheck]
    rw [if_pos h]
    rfl
  · intro s i
    exact ⟨rfl, rfl, rfl⟩

theorem C2_watchdog_failsafe_witness :
    (step 0 initState (Event.timePasses 300000)).outputs 0 = 1000 :=
  (C2_watchdog_failsafe 0).2.1 initState 300000 (by decide) 0

set_option maxRecDepth 8000 in
/-- C7 counterexample: in firmware_template.c, after the 36 bytes of a
frame have streamed in from boot, `byte_index` stands at 36 (the claim
says it has wrapped to 0 at this point), and a further received byte
neither advances it nor wraps it — it stays saturated at 36 until a sync
edge. -/
theorem C7_counterexample :
    ((List.replicate 36 5).foldl (receiveByte 0) initState).byteIndex = 36
    ∧ (receiveByte 0 ((List.replicate 36 5).foldl (receiveByte 0) initState) 7).byteIndex
        = 36 := by
  constructor <;> decide

/-- C7 (amended): on every received byte the firmware_template counter is
advanced only while it is below the frame length and saturates at 36
(extra bytes are ignored until the sync edge resets the counter), in both
cases irrespective of whether the byte fell in this node's assigned range;
the pico2_spi_pwm_v1 counter advances on every byte and wraps to 0 upon
reaching 36, as the claim describes. -/
theorem C7_stream_position_advance :
    (∀ (picoId : Nat) (s : NodeState) (b : Nat),
      (receiveByte picoId s b).byteIndex =
        if s.byteIndex < FRAME_BYTES then s.byteIndex + 1 else s.byteIndex)
    ∧ (∀ (s : V1State) (b : Nat),
      (v1ReceiveByte s b).frameIndex =
        if s.frameIndex + 1 ≥ FRAME_BYTES then 0 else s.frameIndex + 1) := by
  constructor
  · exact receiveByte_byteIndex
  · intro s b
    simp only [v1ReceiveByte]
    split_ifs <;> rfl

/-- C8 counterexample: in pico2_spi_pwm_v1.c a sync edge arriving mid-frame
(5 bytes in, frame not complete) is not processed at all — `frame_index`
stays at 5 instead of being reset to 0 — and even when a complete frame is
pending, the latch body never resets `frame_index`. -/
theorem C8_counterexample :
    (v1SyncCheck v1MidFrameState).frameIndex = 5
    ∧ (v1SyncCheck
        { v1MidFrameState with frameComplete := true }).frameIndex = 5 := by
  constructor <;> rfl

/-- C8 (amended): firmware_template.c resets `byte_index` to 0 on every
processed sync edge, unconditionally; pico2_spi_pwm_v1.c gates its latch
on `frame_complete` and never touches `frame_index` on a sync edge — with
an incomplete frame the edge leaves the whole state unchanged (alignment
there relies on the wrap at frame completion instead). -/
theorem C8_sync_resets_position :
    (∀ s : NodeState, (syncStep s).byteIndex = 0)
    ∧ (∀ s : V1State,
        v1SyncCheck { s with frameComplete := false }
          = { s with frameComplete := false }) := by
  constructor
  · intro s
    rfl
  · intro s
    simp [v1SyncCheck]

/-- C9 counterexample: a firmware_template node 5 bytes into a frame that
then sees a full second with no byte and no sync edge keeps
`stream_position` (`byte_index`) at 5 — the watchdog fires (outputs are
forced idle) but no timeout ever resets the mid-frame position, for any
bound, let alone one shorter than the 2500 µs frame period. -/
theorem C9_counterexample :
    (step 0 midFrameState (Event.timePasses 1000000)).byteIndex = 5
    ∧ (step 0 midFrameState (Event.timePasses 1000000)).outputs 0 = 1000 := by
  constructor <;> rfl

/-- C9 (amended): the node has no stall timeout on the byte counter: the
passage of any amount of byte-free, sync-free time (including the watchdog
branch it may trigger) leaves `byte_index` unchanged; the counter is reset
to 0 only by a processed sync edge. -/
theorem C9_no_stall_timeout :
    (∀ (picoId : Nat) (s : NodeState) (d : Nat),
      (step picoId s (Event.timePasses d)).byteIndex = s.byteIndex)
    ∧ (∀ s : NodeState, (syncStep s).byteIndex = 0) := by
  constructor
  · intro picoId s d
    simp only [step, watchdogCheck]
    split_ifs <;> rfl
  · intro s
    rfl

theorem receive_list_spec (picoId : Nat) (l : List Nat) :
    ∀ s : NodeState, s.byteIndex + l.length ≤ FRAME_BYTES →
      (l.foldl (receiveByte picoId) s).byteIndex = s.byteIndex + l.length
      ∧ ∀ i : Fin 9,
          (l.foldl (receiveByte picoId) s).motorValues i =
            if s.byteIndex ≤ MY_START picoId + (i : Nat)
                ∧ MY_START picoId + (i : Nat) < s.byteIndex + l.length
            then l.getD (MY_START picoId + (i : Nat) - s.byteIndex) 0
            else s.motorValues i := by
  induction l with
  | nil =>
    intro s hle
    refine ⟨by simp, ?_⟩
    intro i
    rw [if_neg (by simp only [List.length_nil]; omega)]
    simp
  | cons b t ih =>
    intro s hle
    simp only [List.length_cons] at hle
    have hk : s.byteIndex < FRAME_BYTES := by
      have : (0 : Nat) < FRAME_BYTES := by decide
      omega
    have h1 : (receiveByte picoId s b).byteIndex = s.byteIndex + 1 := by
      rw [receiveByte_byteIndex, if_pos hk]
    obtain ⟨ihIdx, ihVal⟩ := ih (receiveByte picoId s b) (by rw [h1]; omega)
    simp only [List.foldl_cons, List.length_cons]
    constructor
    · rw [ihIdx, h1]
      omega
    · intro i
      rw [ihVal i, h1, receiveByte_motorValues]
      by_cases hp : s.byteIndex + 1 ≤ MY_START picoId + (i : Nat)
          ∧ MY_START picoId + (i : Nat) < s.byteIndex + 1 + t.length
      · rw [if_pos hp, if_pos (by omega)]
        have hshift : MY_START picoId + (i : Nat) - s.byteIndex
            = (MY_START picoId + (i : Nat) - (s.byteIndex + 1)) + 1 := by
          omega
        rw [hshift, List.getD_cons_succ]
      · rw [if_neg hp]
        by_cases hq : MY_START picoId + (i : Nat) = s.byteIndex
        · rw [if_pos hq, if_pos (by omega)]
          rw [hq, Nat.sub_self, List.getD_cons_zero]
        · rw [if_neg hq, if_neg (by omega)]

theorem runFrame_spec (picoId : Nat) (hpico : picoId < 4) (s : NodeState)
    (h0 : s.byteIndex = 0) (f : List Nat) (hf : f.length = FRAME_BYTES) :
    (runFrame picoId s f).byteIndex = 0
    ∧ ∀ i : Fin 9,
        (runFrame picoId s f).activeBuffer i = f.getD (MY_START picoId + (i : Nat)) 0
        ∧ (runFrame picoId s f).outputs i
            = clampPulse (byteToPwm (f.getD (MY_START picoId + (i : Nat)) 0)) := by
  obtain ⟨hIdx, hVal⟩ := receive_list_spec picoId f s (by omega)
  refine ⟨rfl, ?_⟩
  intro i
  have hcond : s.byteIndex ≤ MY_START picoId + (i : Nat)
      ∧ MY_START picoId + (i : Nat) < s.byteIndex + f.length := by
    have hi := i.isLt
    have e1 : MY_START picoId = picoId * 9 := rfl
    have e2 : FRAME_BYTES = 36 := rfl
    rw [e2] at hf
    rw [e1, h0, hf]
    omega
  have hmv := hVal i
  rw [if_pos hcond, h0, Nat.sub_zero] at hmv
  constructor
  · show (f.foldl (receiveByte picoId) s).motorValues i = _
    exact hmv
  · show clampPulse (byteToPwm ((f.foldl (receiveByte picoId) s).motorValues i)) = _
    rw [hmv]

/-- C1: a node with assigned range [MY_START, MY_END), starting from any
state whose frame counter is at a frame boundary (in particular boot), fed
a well-formed continuous stream of 36-byte frames with a sync edge
processed strictly after each complete frame, latches into its active
buffer and applies to its outputs exactly the bytes at positions
MY_START..MY_END-1 of the most recently completed frame — never a mixture
of bytes from two different frames.  (Applying the theorem to each prefix
of the frame sequence gives the property at every edge.) -/
theorem C1_atomic_frame_latch (picoId : Nat) (hpico : picoId < 4)
    (frames : List (List Nat)) (f : List Nat) :
    ∀ s0 : NodeState, s0.byteIndex = 0 →
      (∀ g ∈ frames, g.length = FRAME_BYTES) → f.length = FRAME_BYTES →
      ∀ i : Fin 9,
        ((frames ++ [f]).foldl (runFrame picoId) s0).activeBuffer i
          = f.getD (MY_START picoId + (i : Nat)) 0
        ∧ ((frames ++ [f]).foldl (runFrame picoId) s0).outputs i
          = clampPulse (byteToPwm (f.getD (MY_START picoId + (i : Nat)) 0)) := by
  induction frames with
  | nil =>
    intro s0 h0 _ hf i
    simp only [List.nil_append, List.foldl_cons, List.foldl_nil]
    exact (runFrame_spec picoId hpico s0 h0 f hf).2 i
  | cons g rest ih =>
    intro s0 h0 hframes hf i
    have hg : g.length = FRAME_BYTES := hframes g (by simp)
    have hmid := (runFrame_spec picoId hpico s0 h0 g hg).1
    simp only [List.cons_append, List.foldl_cons]
    exact ih (runFrame picoId s0 g) hmid
      (fun x hx => hframes x (by simp [hx])) hf i

theorem C1_atomic_frame_latch_witness :
    (([List.replicate 36 10, List.replicate 36 200] : List (List Nat)).foldl
        (runFrame 0) initState).activeBuffer 0 = 200 := by
  have h := (C1_atomic_frame_latch 0 (by decide) [List.replicate 36 10]
      (List.replicate 36 200) initState rfl
      (by intro g hg; rw [List.mem_singleton] at hg; rw [hg]; rfl)
      (by rfl) 0).1
  have e : (List.replicate 36 200).getD (MY_START 0 + ((0 : Fin 9) : Nat)) 0 = 200 := by
    decide
  rw [e] at h
  have e2 : ([List.replicate 36 10] ++ [List.replicate 36 200] : List (List Nat))
      = [List.replicate 36 10, List.replicate 36 200] := rfl
  rw [e2] at h
  exact h

/-- C10: at boot the buffers are zeroed and every output is at the 1000 µs
idle pulse; a sync edge processed before any SPI byte has been received
latches raw value 0 for every owned motor, so every output remains at the
idle pulse — a spurious boot-time edge cannot command motion. -/
theorem C10_boot_sync_idle :
    (∀ i : Fin 9, initState.outputs i = 1000)
    ∧ (∀ i : Fin 9,
        (syncStep initState).outputs i = 1000
        ∧ (syncStep initState).activeBuffer i = 0) := by
  constructor
  · intro i
    rfl
  · intro i
    exact ⟨rfl, rfl⟩

theorem pwm_final_step (prev t : Int) (hlo : 1000 ≤ prev) (hhi : prev ≤ 2000) :
    (pwm_final prev t - prev ≤ 50 ∧ prev - pwm_final prev t ≤ 50)
    ∧ 1000 ≤ pwm_final prev t ∧ pwm_final prev t ≤ 2000 := by
  simp only [pwm_final, pwm_safe, pwm_delta, clip, max_def, min_def]
  split_ifs <;> omega

theorem slewRun_chain (ts : List Int) :
    ∀ prev : Int, 1000 ≤ prev → prev ≤ 2000 →
      ∀ n : Nat, n + 1 < (prev :: slewRun prev ts).length →
        ((prev :: slewRun prev ts).getD (n + 1) 0
            - (prev :: slewRun prev ts).getD n 0 ≤ 50
         ∧ (prev :: slewRun prev ts).getD n 0
            - (prev :: slewRun prev ts).getD (n + 1) 0 ≤ 50)
        ∧ 1000 ≤ (prev :: slewRun prev ts).getD (n + 1) 0
        ∧ (prev :: slewRun prev ts).getD (n + 1) 0 ≤ 2000 := by
  induction ts with
  | nil =>
    intro prev _ _ n h
    simp [slewRun] at h
  | cons t ts ih =>
    intro prev h1 h2 n h
    have hstep := pwm_final_step prev t h1 h2
    match n with
    | 0 =>
      simp only [slewRun, List.getD_cons_succ, List.getD_cons_zero]
      exact hstep
    | Nat.succ m =>
      have hlen : m + 1 < (pwm_final prev t :: slewRun (pwm_final prev t) ts).length := by
        simp only [slewRun, List.length_cons] at h ⊢
        omega
      have := ih (pwm_final prev t) hstep.2.1 hstep.2.2 m hlen
      simpa only [slewRun, List.getD_cons_succ] using this

/-- C4: for every sequence of per-tick targets, with the previous value
seeded at the channel idle value 1000 on the first tick, every transmitted
value of the slew-limiting step differs from the previous tick's
transmitted value by at most 50 PWM units in magnitude, and always lies in
the valid range [1000, 2000]. -/
theorem C4_slew_bounded (targets : List Int) (n : Nat)
    (h : n + 1 < ((1000 : Int) :: slewRun 1000 targets).length) :
    (((1000 : Int) :: slewRun 1000 targets).getD (n + 1) 0
        - ((1000 : Int) :: slewRun 1000 targets).getD n 0 ≤ 50
     ∧ ((1000 : Int) :: slewRun 1000 targets).getD n 0
        - ((1000 : Int) :: slewRun 1000 targets).getD (n + 1) 0 ≤ 50)
    ∧ 1000 ≤ ((1000 : Int) :: slewRun 1000 targets).getD (n + 1) 0
    ∧ ((1000 : Int) :: slewRun 1000 targets).getD (n + 1) 0 ≤ 2000 :=
  slewRun_chain targets 1000 (le_refl 1000) (by decide) n h

theorem C4_slew_bounded_witness :
    (((1000 : Int) :: slewRun 1000 [2000, 900]).getD 1 0
        - ((1000 : Int) :: slewRun 1000 [2000, 900]).getD 0 0 ≤ 50
     ∧ ((1000 : Int) :: slewRun 1000 [2000, 900]).getD 0 0
        - ((1000 : Int) :: slewRun 1000 [2000, 900]).getD 1 0 ≤ 50)
    ∧ 1000 ≤ ((1000 : Int) :: slewRun 1000 [2000, 900]).getD 1 0
    ∧ ((1000 : Int) :: slewRun 1000 [2000, 900]).getD 1 0 ≤ 2000 :=
  C4_slew_bounded [2000, 900] 0 (by decide)

end AWW
